import Mathlib

/-!
# Verification of the expression evaluator in `src/calc.cpp`

This file gives a shallow embedding of the recursive-descent arithmetic
parser/evaluator implemented by the `Parser` class of `src/calc.cpp`
(lines 8–143) and proves the frozen claims about it.

Modelling decisions:

* **Numeric values.** The C++ code computes with `double`.  Every claim under
  consideration involves only values on which IEEE-754 double arithmetic is
  exact (small integers and short decimal fractions whose combinations stay
  well inside 53 bits of significand), so numeric values are modelled as exact
  rationals.  We use a kernel-computable rational type `QV` (numerator /
  positive denominator in lowest terms, normalisation by `Nat.gcd`) so that
  whole parser runs can be evaluated by `decide`; the bridge lemmas in the
  theorem section prove that the `QV` operations agree with Mathlib's `ℚ`
  field operations under the embedding `QV.toRat`.

* **Parser state.** The C++ `Parser` holds the immutable expression `expr`
  and a mutable cursor `pos`.  The expression becomes a `List Char`, and each
  member function becomes a function that takes the current `pos` and returns
  its result together with the new `pos`.  Exceptions become an `Except`
  value; since the C++ object still has its cursor when an exception
  propagates, parse functions return the cursor alongside the error as well.

* **Errors.** Each `throw runtime_error(...)` site is modelled by a
  constructor of `ParseError` carrying exactly the data interpolated into the
  C++ message (the cursor offset for "Unexpected trailing input at pos N" and
  "Expected number at pos N"; nothing for "Division by zero", "Modulo by
  zero" and "Missing ')'").  `std::stod` throwing `std::invalid_argument` is
  the constructor `stodInvalid`.

* **Recursion.** The mutually recursive grammar functions and their `while`
  loops are defined by structural recursion on an explicit fuel parameter;
  `outOfFuel` is the (embedding-only) result of fuel exhaustion.  `evaluate`
  supplies fuel `8 * (length + 1)`, which is ample: every recursive descent
  and every loop iteration consumes input.  All cursor-invariant theorems are
  proved for arbitrary fuel.
-/

namespace Calc

/-! ## Exact rational values (model of the C++ `double` values) -/

/-- An exact rational value: the model of the C++ `double` computations.
Produced values are kept in canonical form: `den > 0` and
`Nat.gcd num.natAbs den = 1`, so structural equality is value equality. -/
structure QV where
  num : Int
  den : Nat
deriving DecidableEq, Repr

/-- Canonicalising constructor: the rational `n / d` in lowest terms with a
positive denominator.  For `d = 0` (which the parser never produces for a
value that is actually used: division and modulo by zero are guarded) the
junk value `⟨0, 0⟩` results. -/
def qnorm (n d : Int) : QV :=
  if d = 0 then ⟨0, 0⟩
  else
    let s : Int := if d < 0 then -1 else 1
    let n' : Int := s * n
    let d' : Nat := (s * d).natAbs
    let g : Nat := Nat.gcd n'.natAbs d'
    ⟨n' / (g : Int), d' / g⟩

def QV.add (a b : QV) : QV := qnorm (a.num * b.den + b.num * a.den) (a.den * b.den)

def QV.sub (a b : QV) : QV := qnorm (a.num * b.den - b.num * a.den) (a.den * b.den)

def QV.mul (a b : QV) : QV := qnorm (a.num * b.num) (a.den * b.den)

def QV.div (a b : QV) : QV := qnorm (a.num * b.den) (a.den * b.num)

def QV.neg (a : QV) : QV := ⟨-a.num, a.den⟩

/-- Model of `static_cast<double>` of an integer (exact for the 64-bit values
the claims exercise). -/
def QV.ofInt (n : Int) : QV := ⟨n, 1⟩

instance : Add QV := ⟨QV.add⟩
instance : Sub QV := ⟨QV.sub⟩
instance : Mul QV := ⟨QV.mul⟩
instance : Div QV := ⟨QV.div⟩
instance : Neg QV := ⟨QV.neg⟩
instance (n : Nat) : OfNat QV n := ⟨⟨(n : Int), 1⟩⟩

/-- Model of `static_cast<long long>` applied to a value (C++ truncation
toward zero; `Int.tdiv` is exactly truncated division).  The 64-bit range
restriction of `long long` is not modelled: all values in scope are tiny, and
the conversion is undefined behaviour in C++ outside the range anyway. -/
def truncQV (q : QV) : Int := q.num.tdiv (q.den : Int)

/-- Model of `std::pow`.  Exact for integral exponents, the only exponents
appearing in the claims (a non-integral exponent would in general produce an
irrational number, which no exact model can represent; such calls yield the
junk value `⟨0, 0⟩`). -/
def QV.powQV (b e : QV) : QV :=
  if e.den = 1 then
    if 0 ≤ e.num then qnorm (b.num ^ e.num.toNat) ((b.den : Int) ^ e.num.toNat)
    else qnorm ((b.den : Int) ^ (-e.num).toNat) (b.num ^ (-e.num).toNat)
  else ⟨0, 0⟩

/-- Embedding of `QV` into Mathlib's rationals, used by the bridge lemmas
that certify the `QV` arithmetic. -/
def QV.toRat (a : QV) : ℚ := (a.num : ℚ) / (a.den : ℚ)

/-! ## Character classification (C locale, as used by `src/calc.cpp`) -/

/-- `isspace` of `<cctype>` in the C locale: space, `\t`, `\n`, `\v`, `\f`,
`\r` (calc.cpp line 26). -/
def isSpaceC (c : Char) : Bool :=
  c = ' ' || c = '\t' || c = '\n' || c = '\x0b' || c = '\x0c' || c = '\r'

/-- `isdigit` of `<cctype>`: the ASCII digits (calc.cpp lines 49, 123, 132). -/
def isDigitC (c : Char) : Bool := '0' ≤ c && c ≤ '9'

/-! ## Errors -/

/-- One constructor per throw site of `src/calc.cpp`, carrying exactly the
data interpolated into the thrown message. -/
inductive ParseError where
  /-- line 18: `"Unexpected trailing input at pos " + to_string(pos)`. -/
  | trailingInput (pos : Nat)
  /-- line 73: `"Division by zero"`. -/
  | divisionByZero
  /-- line 79: `"Modulo by zero"`. -/
  | moduloByZero
  /-- line 109: `"Missing ')'"`. -/
  | missingParen
  /-- line 139: `"Expected number at pos " + to_string(pos)`. -/
  | expectedNumber (pos : Nat)
  /-- `std::invalid_argument` escaping from `std::stod` (line 141) when the
  consumed substring contains no mantissa digit. -/
  | stodInvalid
  /-- Artifact of the embedding only: fuel exhaustion of the structural
  recursion.  Never arises for the fuel `evaluate` supplies. -/
  | outOfFuel
deriving DecidableEq, Repr

/-- The cursor offset interpolated into the C++ error message, if any:
`"Unexpected trailing input at pos N"` and `"Expected number at pos N"` carry
an offset, the other messages do not. -/
def ParseError.offsetCarried : ParseError → Option Nat
  | .trailingInput p => some p
  | .expectedNumber p => some p
  | _ => none

instance : DecidableEq (Except ParseError QV) := fun a b =>
  match a, b with
  | .ok x, .ok y => decidable_of_iff (x = y) (by simp)
  | .error x, .error y => decidable_of_iff (x = y) (by simp)
  | .ok _, .error _ => isFalse (by simp)
  | .error _, .ok _ => isFalse (by simp)

/-- Result of one parse step: the value or error, together with the cursor
(the C++ `Parser` still holds `pos` when an exception propagates). -/
abbrev PRes := Except ParseError QV × Nat

/-! ## Cursor utilities (calc.cpp lines 24–50) -/

/-- `skipSpaces` (line 25–27): advance `pos` past leading whitespace. -/
def skipSpaces (e : List Char) (pos : Nat) : Nat :=
  pos + ((e.drop pos).takeWhile isSpaceC).length

/-- `match(char c)` (lines 28–32): skip spaces, then consume `c` if it is the
current character.  Returns the success flag and the new cursor (the space
skipping is a persistent side effect even on failure). -/
def matchChar (c : Char) (e : List Char) (pos : Nat) : Bool × Nat :=
  let p := skipSpaces e pos
  if e.get? p = some c then (true, p + 1) else (false, p)

/-- The loop of `matchStr` (line 37): does the string `s` occur at `p`? -/
def strAt : List Char → List Char → Nat → Bool
  | [], _, _ => true
  | c :: r, e, p => (e.get? p = some c) && strAt r e (p + 1)

/-- `matchStr(const char* s)` (lines 33–40): skip spaces, then consume the
whole of `s` if it occurs here; on failure the cursor stays after the skipped
spaces. -/
def matchStr (s : List Char) (e : List Char) (pos : Nat) : Bool × Nat :=
  let start := skipSpaces e pos
  if strAt s e start then (true, start + s.length) else (false, start)

/-- `peek` (lines 41–44): skip spaces, return the current character or `'\0'`
at end of input; the space skipping persists. -/
def peek (e : List Char) (pos : Nat) : Char × Nat :=
  let p := skipSpaces e pos
  ((e.get? p).getD '\x00', p)

/-- `nextStartsFactor` (lines 45–50): the next non-space character opens a
factor, i.e. is `'('`, an ASCII digit, or `'.'` (deliberately not `'+'` or
`'-'`). -/
def nextStartsFactor (e : List Char) (pos : Nat) : Bool × Nat :=
  let (c, p) := peek e pos
  ((c = '(') || isDigitC c || (c = '.'), p)

/-! ## Number literal scanning (calc.cpp lines 115–142) -/

/-- The mantissa loop (lines 121–126) on the remaining input: consume digits
and at most one decimal point.  Returns the number of characters consumed and
the final `seenDigit` / `seenDot` flags. -/
def mantScan : List Char → Bool → Bool → Nat × Bool × Bool
  | [], seenDigit, seenDot => (0, seenDigit, seenDot)
  | c :: r, seenDigit, seenDot =>
    if isDigitC c then
      let (n, a, b) := mantScan r true seenDot
      (n + 1, a, b)
    else if c = '.' && !seenDot then
      let (n, a, b) := mantScan r seenDigit true
      (n + 1, a, b)
    else (0, seenDigit, seenDot)

/-- The optional exponent sign (line 130): skip a `'+'` or `'-'` at `q`. -/
def expSignPos (e : List Char) (q : Nat) : Nat :=
  match e.get? q with
  | some s => if s = '+' || s = '-' then q + 1 else q
  | none => q

/-- The speculative scientific-notation scan (lines 127–136), starting at the
position `p1` just after the mantissa (`p1` is the `save` of line 129).  If
the current character is `e`/`E` followed (after an optional sign) by at
least one digit, the cursor moves past the exponent; otherwise it is rolled
back to the saved position `p1`. -/
def expScan (e : List Char) (p1 : Nat) : Nat :=
  match e.get? p1 with
  | some c =>
    if c = 'e' || c = 'E' then
      let q1 := expSignPos e (p1 + 1)
      let nd := ((e.drop q1).takeWhile isDigitC).length
      if 0 < nd then q1 + nd else p1
    else p1
  | none => p1

/-- Value of a digit string read left to right. -/
def digitsToNat (l : List Char) : Nat :=
  l.foldl (fun acc c => 10 * acc + (c.toNat - '0'.toNat)) 0

/-- Model of `std::stod` (line 141) on the substrings this parser can pass to
it: digits, at most one `'.'`, and an optional `e`/`E` exponent with optional
sign.  Like `strtod`, it converts the longest valid prefix and fails
(`std::invalid_argument`, modelled as `none`) when the mantissa contains no
digit at all.  The conversion is exact (decimal-to-rational); IEEE rounding to
the nearest `double` is not modelled, which is irrelevant to the claims as
they only observe values where no rounding occurs. -/
def stodModel (s : List Char) : Option QV :=
  let ds := s.takeWhile isDigitC
  let r1 := s.drop ds.length
  let fs := if r1.head? = some '.' then (r1.drop 1).takeWhile isDigitC else []
  let r2 := if r1.head? = some '.' then (r1.drop 1).drop fs.length else r1
  if ds.length + fs.length = 0 then none
  else
    let m : Nat := digitsToNat (ds ++ fs)
    let ex : Int :=
      match r2 with
      | c :: rest =>
        if c = 'e' || c = 'E' then
          let (sgn, rest') : Int × List Char :=
            match rest with
            | '+' :: t => (1, t)
            | '-' :: t => (-1, t)
            | t => (1, t)
          let es := rest'.takeWhile isDigitC
          if es.length = 0 then 0 else sgn * (digitsToNat es : Int)
        else 0
      | [] => 0
    if 0 ≤ ex then some (qnorm ((m : Int) * (10 : Int) ^ ex.toNat) ((10 : Int) ^ fs.length))
    else some (qnorm (m : Int) ((10 : Int) ^ fs.length * (10 : Int) ^ (-ex).toNat))

/-- `parseNumber` (lines 115–142). -/
def parseNumber (e : List Char) (pos : Nat) : PRes :=
  let start := skipSpaces e pos
  let (mlen, seenDigit, _) := mantScan (e.drop start) false false
  let p1 := start + mlen
  let p2 := expScan e p1
  if !seenDigit && !(start < p2) then (.error (.expectedNumber p2), p2)
  else
    match stodModel ((e.drop start).take (p2 - start)) with
    | some v => (.ok v, p2)
    | none => (.error .stodInvalid, p2)

/-! ## The grammar (calc.cpp lines 52–113), fuelled -/

/-- The modulo step of `parseTerm` (lines 76–80): truncate both operands
toward zero to integers, fail on a zero right operand, otherwise return the
integer remainder (`%` on `long long`, i.e. truncated remainder `Int.tmod`)
as a value. -/
def modOp (val rhs : QV) : Except ParseError QV :=
  let a := truncQV val
  let b := truncQV rhs
  if b = 0 then .error .moduloByZero else .ok (QV.ofInt (a.tmod b))

/-- The division step of `parseTerm` (lines 71–74): fail if the right operand
is exactly zero, otherwise divide. -/
def divOp (val d : QV) : Except ParseError QV :=
  if d = 0 then .error .divisionByZero else .ok (val / d)

mutual

/-- `parseExpression` (lines 54–62): a term, then the additive loop. -/
def parseExpression : Nat → List Char → Nat → PRes
  | 0, _, pos => (.error .outOfFuel, pos)
  | fuel + 1, e, pos =>
    match parseTerm fuel e pos with
    | (.error err, p) => (.error err, p)
    | (.ok v, p) => exprLoop fuel e v p
termination_by structural fuel => fuel

/-- The `while` loop of `parseExpression` (lines 56–60). -/
def exprLoop : Nat → List Char → QV → Nat → PRes
  | 0, _, _, pos => (.error .outOfFuel, pos)
  | fuel + 1, e, val, pos =>
    let (plus, p1) := matchChar '+' e pos
    if plus then
      match parseTerm fuel e p1 with
      | (.error err, p') => (.error err, p')
      | (.ok v, p') => exprLoop fuel e (val + v) p'
    else
      let (minus, p2) := matchChar '-' e p1
      if minus then
        match parseTerm fuel e p2 with
        | (.error err, p') => (.error err, p')
        | (.ok v, p') => exprLoop fuel e (val - v) p'
      else (.ok val, p2)
termination_by structural fuel => fuel

/-- `parseTerm` (lines 66–89): a power, then the multiplicative loop. -/
def parseTerm : Nat → List Char → Nat → PRes
  | 0, _, pos => (.error .outOfFuel, pos)
  | fuel + 1, e, pos =>
    match parsePower fuel e pos with
    | (.error err, p) => (.error err, p)
    | (.ok v, p) => termLoop fuel e v p
termination_by structural fuel => fuel

/-- The `while` loop of `parseTerm` (lines 68–87): explicit `*`, `/`, `%`, or
implicit multiplication when the next non-space character starts a factor. -/
def termLoop : Nat → List Char → QV → Nat → PRes
  | 0, _, _, pos => (.error .outOfFuel, pos)
  | fuel + 1, e, val, pos =>
    let (star, p1) := matchChar '*' e pos
    if star then
      match parsePower fuel e p1 with
      | (.error err, p') => (.error err, p')
      | (.ok v, p') => termLoop fuel e (val * v) p'
    else
      let (slash, p2) := matchChar '/' e p1
      if slash then
        match parsePower fuel e p2 with
        | (.error err, p') => (.error err, p')
        | (.ok d, p') =>
          match divOp val d with
          | .error err => (.error err, p')
          | .ok v' => termLoop fuel e v' p'
      else
        let (pct, p3) := matchChar '%' e p2
        if pct then
          match parsePower fuel e p3 with
          | (.error err, p') => (.error err, p')
          | (.ok rhs, p') =>
            match modOp val rhs with
            | .error err => (.error err, p')
            | .ok v' => termLoop fuel e v' p'
        else
          let (implicit, p4) := nextStartsFactor e p3
          if implicit then
            match parsePower fuel e p4 with
            | (.error err, p') => (.error err, p')
            | (.ok v, p') => termLoop fuel e (val * v) p'
          else (.ok val, p4)
termination_by structural fuel => fuel

/-- `parsePower` (lines 93–100): a factor as the base, then — right-
associatively — an optional `**` (tried first) or `^` followed by a
recursively parsed exponent. -/
def parsePower : Nat → List Char → Nat → PRes
  | 0, _, pos => (.error .outOfFuel, pos)
  | fuel + 1, e, pos =>
    match parseFactor fuel e pos with
    | (.error err, p) => (.error err, p)
    | (.ok base, p) =>
      let (dstar, p1) := matchStr ['*', '*'] e p
      if dstar then
        match parsePower fuel e p1 with
        | (.error err, p') => (.error err, p')
        | (.ok ex, p') => (.ok (QV.powQV base ex), p')
      else
        let (caret, p2) := matchChar '^' e p1
        if caret then
          match parsePower fuel e p2 with
          | (.error err, p') => (.error err, p')
          | (.ok ex, p') => (.ok (QV.powQV base ex), p')
        else (.ok base, p2)
termination_by structural fuel => fuel

/-- `parseFactor` (lines 103–113): unary sign, parenthesised expression, or
number literal. -/
def parseFactor : Nat → List Char → Nat → PRes
  | 0, _, pos => (.error .outOfFuel, pos)
  | fuel + 1, e, pos =>
    let p0 := skipSpaces e pos
    let (plus, p1) := matchChar '+' e p0
    if plus then parseFactor fuel e p1
    else
      let (minus, p2) := matchChar '-' e p1
      if minus then
        match parseFactor fuel e p2 with
        | (.error err, p') => (.error err, p')
        | (.ok v, p') => (.ok (-v), p')
      else
        let (lparen, p3) := matchChar '(' e p2
        if lparen then
          match parseExpression fuel e p3 with
          | (.error err, p') => (.error err, p')
          | (.ok v, p') =>
            let (rparen, p4) := matchChar ')' e p'
            if rparen then (.ok v, p4) else (.error .missingParen, p4)
        else parseNumber e p3

termination_by structural fuel => fuel
end

/-- `parse` (lines 14–21): the whole expression, then require that only
whitespace remains; otherwise fail with the trailing-input error at the first
unconsumed character. -/
def parse (fuel : Nat) (e : List Char) : PRes :=
  match parseExpression fuel e 0 with
  | (.error err, p) => (.error err, p)
  | (.ok v, p) =>
    let p' := skipSpaces e p
    if p' ≠ e.length then (.error (.trailingInput p'), p') else (.ok v, p')

/-- The evaluator contract of the spec: `evaluate(text)`.  The fuel
`8 * (length + 1)` over-approximates the depth of the C++ call tree, every
level of which consumes input. -/
def evaluate (s : String) : PRes := parse (8 * (s.length + 1)) s.data

/-- The cursor invariant of the spec, stated for every parsing step of the
embedding at once: starting from a cursor `pos ≤ length`, each step leaves
the cursor in `[pos, length]` — it never moves backwards past the position it
was entered at (in particular the speculative-exponent rollback `expScan`
returns to its saved entry position at the earliest) and never beyond the end
of the input. -/
def CursorClaim (fuel : Nat) (e : List Char) (pos : Nat) : Prop :=
  (pos ≤ skipSpaces e pos ∧ skipSpaces e pos ≤ e.length) ∧
  (∀ c, pos ≤ (matchChar c e pos).2 ∧ (matchChar c e pos).2 ≤ e.length) ∧
  (∀ s, pos ≤ (matchStr s e pos).2 ∧ (matchStr s e pos).2 ≤ e.length) ∧
  (pos ≤ (peek e pos).2 ∧ (peek e pos).2 ≤ e.length) ∧
  (pos ≤ (nextStartsFactor e pos).2 ∧ (nextStartsFactor e pos).2 ≤ e.length) ∧
  (pos ≤ expScan e pos ∧ expScan e pos ≤ e.length) ∧
  (pos ≤ (parseNumber e pos).2 ∧ (parseNumber e pos).2 ≤ e.length) ∧
  (pos ≤ (parseFactor fuel e pos).2 ∧ (parseFactor fuel e pos).2 ≤ e.length) ∧
  (pos ≤ (parsePower fuel e pos).2 ∧ (parsePower fuel e pos).2 ≤ e.length) ∧
  (∀ val, pos ≤ (termLoop fuel e val pos).2 ∧ (termLoop fuel e val pos).2 ≤ e.length) ∧
  (pos ≤ (parseTerm fuel e pos).2 ∧ (parseTerm fuel e pos).2 ≤ e.length) ∧
  (∀ val, pos ≤ (exprLoop fuel e val pos).2 ∧ (exprLoop fuel e val pos).2 ≤ e.length) ∧
  (pos ≤ (parseExpression fuel e pos).2 ∧ (parseExpression fuel e pos).2 ≤ e.length)

/-! ## Cursor bounds for the utility and scanning functions -/

lemma takeWhile_length_le (p : Char → Bool) (l : List Char) :
    (l.takeWhile p).length ≤ l.length := by
  induction l with
  | nil => simp
  | cons c r ih =>
    simp only [List.takeWhile]
    by_cases h : p c = true
    · simp [h]; omega
    · simp [h]

lemma get?_some_lt {e : List Char} {p : Nat} {c : Char} (h : e.get? p = some c) :
    p < e.length := by
  by_contra hlt
  have hn : e.get? p = none := List.get?_eq_none.mpr (by omega)
  rw [hn] at h
  cases h

lemma le_skipSpaces (e : List Char) (pos : Nat) : pos ≤ skipSpaces e pos :=
  Nat.le_add_right _ _

lemma skipSpaces_le (e : List Char) (pos : Nat) (h : pos ≤ e.length) :
    skipSpaces e pos ≤ e.length := by
  have h1 : ((e.drop pos).takeWhile isSpaceC).length ≤ (e.drop pos).length :=
    takeWhile_length_le _ _
  have h2 : (e.drop pos).length = e.length - pos := List.length_drop _ _
  unfold skipSpaces
  omega

lemma matchChar_bounds (c : Char) (e : List Char) (pos : Nat) (h : pos ≤ e.length) :
    pos ≤ (matchChar c e pos).2 ∧ (matchChar c e pos).2 ≤ e.length := by
  have h1 := le_skipSpaces e pos
  have h2 := skipSpaces_le e pos h
  simp only [matchChar]
  by_cases hg : e.get? (skipSpaces e pos) = some c
  · have h3 := get?_some_lt hg
    rw [if_pos hg]
    dsimp only
    omega
  · rw [if_neg hg]
    dsimp only
    omega

lemma strAt_le {s e : List Char} {p : Nat} (h : strAt s e p = true) (hp : p ≤ e.length) :
    p + s.length ≤ e.length := by
  induction s generalizing p with
  | nil => simpa using hp
  | cons c r ih =>
    simp only [strAt, Bool.and_eq_true, decide_eq_true_eq] at h
    obtain ⟨h1, h2⟩ := h
    have hlt := get?_some_lt h1
    have := ih h2 (by omega)
    simp only [List.length_cons]
    omega

lemma matchStr_bounds (s e : List Char) (pos : Nat) (h : pos ≤ e.length) :
    pos ≤ (matchStr s e pos).2 ∧ (matchStr s e pos).2 ≤ e.length := by
  have h1 := le_skipSpaces e pos
  have h2 := skipSpaces_le e pos h
  unfold matchStr
  by_cases hs : strAt s e (skipSpaces e pos) = true
  · have h3 := strAt_le hs h2
    simp [hs]
    omega
  · simp [hs]
    omega

lemma peek_bounds (e : List Char) (pos : Nat) (h : pos ≤ e.length) :
    pos ≤ (peek e pos).2 ∧ (peek e pos).2 ≤ e.length := by
  unfold peek
  exact ⟨le_skipSpaces e pos, skipSpaces_le e pos h⟩

lemma nextStartsFactor_bounds (e : List Char) (pos : Nat) (h : pos ≤ e.length) :
    pos ≤ (nextStartsFactor e pos).2 ∧ (nextStartsFactor e pos).2 ≤ e.length := by
  unfold nextStartsFactor
  exact peek_bounds e pos h

lemma mantScan_le (l : List Char) : ∀ sd sdot, (mantScan l sd sdot).1 ≤ l.length := by
  induction l with
  | nil => intro sd sdot; simp [mantScan]
  | cons c r ih =>
    intro sd sdot
    simp only [mantScan]
    by_cases h1 : isDigitC c = true
    · rw [if_pos h1]
      have := ih true sdot
      rcases hm : mantScan r true sdot with ⟨n, a, b⟩
      rw [hm] at this
      dsimp only
      simp only [List.length_cons]
      omega
    · rw [if_neg h1]
      by_cases h2 : (c = '.' && !sdot) = true
      · rw [if_pos h2]
        have := ih sd true
        rcases hm : mantScan r sd true with ⟨n, a, b⟩
        rw [hm] at this
        dsimp only
        simp only [List.length_cons]
        omega
      · rw [if_neg h2]
        dsimp only
        simp only [List.length_cons]
        omega

lemma le_expSignPos (e : List Char) (q : Nat) : q ≤ expSignPos e q := by
  unfold expSignPos
  cases hg : e.get? q with
  | none => exact le_refl _
  | some s =>
    by_cases hs : (s = '+' || s = '-') = true
    · simp [hs]
    · simp [hs]

lemma expSignPos_le (e : List Char) (q : Nat) (h : q ≤ e.length) :
    expSignPos e q ≤ e.length := by
  unfold expSignPos
  cases hg : e.get? q with
  | none => exact h
  | some s =>
    have := get?_some_lt hg
    by_cases hs : (s = '+' || s = '-') = true
    · simp [hs]; omega
    · simp [hs]; omega

lemma le_expScan (e : List Char) (p1 : Nat) : p1 ≤ expScan e p1 := by
  unfold expScan
  cases hg : e.get? p1 with
  | none => exact le_refl _
  | some c =>
    by_cases hc : (c = 'e' || c = 'E') = true
    · have h1 := le_expSignPos e (p1 + 1)
      by_cases hnd : 0 < ((e.drop (expSignPos e (p1 + 1))).takeWhile isDigitC).length
      · simp [hc, hnd]
        omega
      · simp [hc, hnd]
    · simp [hc]

lemma expScan_le (e : List Char) (p1 : Nat) (h : p1 ≤ e.length) :
    expScan e p1 ≤ e.length := by
  unfold expScan
  cases hg : e.get? p1 with
  | none => exact h
  | some c =>
    have hlt := get?_some_lt hg
    by_cases hc : (c = 'e' || c = 'E') = true
    · have h1 := expSignPos_le e (p1 + 1) (by omega)
      have h2 : ((e.drop (expSignPos e (p1 + 1))).takeWhile isDigitC).length ≤
          (e.drop (expSignPos e (p1 + 1))).length :=
        takeWhile_length_le _ _
      have h3 : (e.drop (expSignPos e (p1 + 1))).length =
          e.length - expSignPos e (p1 + 1) := List.length_drop _ _
      by_cases hnd : 0 < ((e.drop (expSignPos e (p1 + 1))).takeWhile isDigitC).length
      · simp [hc, hnd]
        omega
      · simp [hc, hnd]
        omega
    · simp [hc]
      omega

lemma parseNumber_bounds (e : List Char) (pos : Nat) (h : pos ≤ e.length) :
    pos ≤ (parseNumber e pos).2 ∧ (parseNumber e pos).2 ≤ e.length := by
  have h1 : pos ≤ skipSpaces e pos := le_skipSpaces e pos
  have h2 : skipSpaces e pos ≤ e.length := skipSpaces_le e pos h
  unfold parseNumber
  rcases hm : mantScan (e.drop (skipSpaces e pos)) false false with ⟨mlen, sd, sdot⟩
  have h3 : mlen ≤ (e.drop (skipSpaces e pos)).length := by
    have := mantScan_le (e.drop (skipSpaces e pos)) false false
    rw [hm] at this
    exact this
  have h4 : (e.drop (skipSpaces e pos)).length = e.length - skipSpaces e pos :=
    List.length_drop _ _
  have h5 := le_expScan e (skipSpaces e pos + mlen)
  have h6 := expScan_le e (skipSpaces e pos + mlen) (by omega)
  simp only [hm]
  split_ifs with hg
  · simp
    omega
  · cases hst : stodModel ((e.drop (skipSpaces e pos)).take
        (expScan e (skipSpaces e pos + mlen) - skipSpaces e pos)) with
    | none => simp [hst]; omega
    | some v => simp [hst]; omega

/-! ## Cursor bounds for the grammar functions (mutual fuel induction) -/

lemma parseBounds : ∀ fuel : Nat,
    (∀ e pos, pos ≤ e.length →
      pos ≤ (parseFactor fuel e pos).2 ∧ (parseFactor fuel e pos).2 ≤ e.length) ∧
    (∀ e pos, pos ≤ e.length →
      pos ≤ (parsePower fuel e pos).2 ∧ (parsePower fuel e pos).2 ≤ e.length) ∧
    (∀ e val pos, pos ≤ e.length →
      pos ≤ (termLoop fuel e val pos).2 ∧ (termLoop fuel e val pos).2 ≤ e.length) ∧
    (∀ e pos, pos ≤ e.length →
      pos ≤ (parseTerm fuel e pos).2 ∧ (parseTerm fuel e pos).2 ≤ e.length) ∧
    (∀ e val pos, pos ≤ e.length →
      pos ≤ (exprLoop fuel e val pos).2 ∧ (exprLoop fuel e val pos).2 ≤ e.length) ∧
    (∀ e pos, pos ≤ e.length →
      pos ≤ (parseExpression fuel e pos).2 ∧ (parseExpression fuel e pos).2 ≤ e.length) := by
  intro fuel
  induction fuel with
  | zero =>
    refine ⟨?_, ?_, ?_, ?_, ?_, ?_⟩
    · intro e pos h; simp only [parseFactor]; exact ⟨le_refl _, h⟩
    · intro e pos h; simp only [parsePower]; exact ⟨le_refl _, h⟩
    · intro e val pos h; simp only [termLoop]; exact ⟨le_refl _, h⟩
    · intro e pos h; simp only [parseTerm]; exact ⟨le_refl _, h⟩
    · intro e val pos h; simp only [exprLoop]; exact ⟨le_refl _, h⟩
    · intro e pos h; simp only [parseExpression]; exact ⟨le_refl _, h⟩
  | succ f ih =>
    obtain ⟨ihF, ihP, ihTL, ihT, ihEL, ihE⟩ := ih
    refine ⟨?_, ?_, ?_, ?_, ?_, ?_⟩
    -- parseFactor (f+1)
    · intro e pos h
      simp only [parseFactor]
      have h0a := le_skipSpaces e pos
      have h0b := skipSpaces_le e pos h
      rcases hm1 : matchChar '+' e (skipSpaces e pos) with ⟨b1, p1⟩
      have hb1 := matchChar_bounds '+' e (skipSpaces e pos) h0b
      rw [hm1] at hb1; dsimp only at hb1
      try dsimp only
      cases b1 with
      | true =>
        rw [if_pos rfl]
        have hf := ihF e p1 hb1.2
        exact ⟨le_trans (le_trans h0a hb1.1) hf.1, hf.2⟩
      | false =>
        rw [if_neg Bool.false_ne_true]
        rcases hm2 : matchChar '-' e p1 with ⟨b2, p2⟩
        have hb2 := matchChar_bounds '-' e p1 hb1.2
        rw [hm2] at hb2; dsimp only at hb2
        try dsimp only
        cases b2 with
        | true =>
          rw [if_pos rfl]
          rcases hF : parseFactor f e p2 with ⟨res, pr⟩
          have hbF := ihF e p2 hb2.2
          rw [hF] at hbF; dsimp only at hbF
          try dsimp only
          cases res with
          | error err => (try dsimp only); omega
          | ok v => (try dsimp only); omega
        | false =>
          rw [if_neg Bool.false_ne_true]
          rcases hm3 : matchChar '(' e p2 with ⟨b3, p3⟩
          have hb3 := matchChar_bounds '(' e p2 hb2.2
          rw [hm3] at hb3; dsimp only at hb3
          try dsimp only
          cases b3 with
          | true =>
            rw [if_pos rfl]
            rcases hE : parseExpression f e p3 with ⟨res, pr⟩
            have hbE := ihE e p3 hb3.2
            rw [hE] at hbE; dsimp only at hbE
            try dsimp only
            cases res with
            | error err => (try dsimp only); omega
            | ok v =>
              try dsimp only
              rcases hm4 : matchChar ')' e pr with ⟨b4, p4⟩
              have hb4 := matchChar_bounds ')' e pr hbE.2
              rw [hm4] at hb4; dsimp only at hb4
              try dsimp only
              cases b4 with
              | true => rw [if_pos rfl]; dsimp only; omega
              | false => rw [if_neg Bool.false_ne_true]; dsimp only; omega
          | false =>
            rw [if_neg Bool.false_ne_true]
            have hn := parseNumber_bounds e p3 hb3.2
            omega
    -- parsePower (f+1)
    · intro e pos h
      simp only [parsePower]
      rcases hF : parseFactor f e pos with ⟨res, p⟩
      have hbF := ihF e pos h
      rw [hF] at hbF; dsimp only at hbF
      try dsimp only
      cases res with
      | error err => (try dsimp only); omega
      | ok base =>
        try dsimp only
        rcases hms : matchStr ['*', '*'] e p with ⟨b1, p1⟩
        have hb1 := matchStr_bounds ['*', '*'] e p hbF.2
        rw [hms] at hb1; dsimp only at hb1
        try dsimp only
        cases b1 with
        | true =>
          rw [if_pos rfl]
          rcases hP : parsePower f e p1 with ⟨res2, pr⟩
          have hbP := ihP e p1 hb1.2
          rw [hP] at hbP; dsimp only at hbP
          try dsimp only
          cases res2 with
          | error err => (try dsimp only); omega
          | ok ex => (try dsimp only); omega
        | false =>
          rw [if_neg Bool.false_ne_true]
          rcases hmc : matchChar '^' e p1 with ⟨b2, p2⟩
          have hb2 := matchChar_bounds '^' e p1 hb1.2
          rw [hmc] at hb2; dsimp only at hb2
          try dsimp only
          cases b2 with
          | true =>
            rw [if_pos rfl]
            rcases hP : parsePower f e p2 with ⟨res2, pr⟩
            have hbP := ihP e p2 hb2.2
            rw [hP] at hbP; dsimp only at hbP
            try dsimp only
            cases res2 with
            | error err => (try dsimp only); omega
            | ok ex => (try dsimp only); omega
          | false =>
            rw [if_neg Bool.false_ne_true]
            try dsimp only
            omega
    -- termLoop (f+1)
    · intro e val pos h
      simp only [termLoop]
      rcases hm1 : matchChar '*' e pos with ⟨b1, p1⟩
      have hb1 := matchChar_bounds '*' e pos h
      rw [hm1] at hb1; dsimp only at hb1
      try dsimp only
      cases b1 with
      | true =>
        rw [if_pos rfl]
        rcases hP : parsePower f e p1 with ⟨res, pr⟩
        have hbP := ihP e p1 hb1.2
        rw [hP] at hbP; dsimp only at hbP
        try dsimp only
        cases res with
        | error err => (try dsimp only); omega
        | ok v =>
          try dsimp only
          have hl := ihTL e (val * v) pr hbP.2
          omega
      | false =>
        rw [if_neg Bool.false_ne_true]
        rcases hm2 : matchChar '/' e p1 with ⟨b2, p2⟩
        have hb2 := matchChar_bounds '/' e p1 hb1.2
        rw [hm2] at hb2; dsimp only at hb2
        try dsimp only
        cases b2 with
        | true =>
          rw [if_pos rfl]
          rcases hP : parsePower f e p2 with ⟨res, pr⟩
          have hbP := ihP e p2 hb2.2
          rw [hP] at hbP; dsimp only at hbP
          try dsimp only
          cases res with
          | error err => (try dsimp only); omega
          | ok d =>
            try dsimp only
            cases hdo : divOp val d with
            | error err => (try dsimp only); omega
            | ok v2 =>
              try dsimp only
              have hl := ihTL e v2 pr hbP.2
              omega
        | false =>
          rw [if_neg Bool.false_ne_true]
          rcases hm3 : matchChar '%' e p2 with ⟨b3, p3⟩
          have hb3 := matchChar_bounds '%' e p2 hb2.2
          rw [hm3] at hb3; dsimp only at hb3
          try dsimp only
          cases b3 with
          | true =>
            rw [if_pos rfl]
            rcases hP : parsePower f e p3 with ⟨res, pr⟩
            have hbP := ihP e p3 hb3.2
            rw [hP] at hbP; dsimp only at hbP
            try dsimp only
            cases res with
            | error err => (try dsimp only); omega
            | ok rhs =>
              try dsimp only
              cases hmo : modOp val rhs with
              | error err => (try dsimp only); omega
              | ok v2 =>
                try dsimp only
                have hl := ihTL e v2 pr hbP.2
                omega
          | false =>
            rw [if_neg Bool.false_ne_true]
            rcases hm4 : nextStartsFactor e p3 with ⟨b4, p4⟩
            have hb4 := nextStartsFactor_bounds e p3 hb3.2
            rw [hm4] at hb4; dsimp only at hb4
            try dsimp only
            cases b4 with
            | true =>
              rw [if_pos rfl]
              rcases hP : parsePower f e p4 with ⟨res, pr⟩
              have hbP := ihP e p4 hb4.2
              rw [hP] at hbP; dsimp only at hbP
              try dsimp only
              cases res with
              | error err => (try dsimp only); omega
              | ok v =>
                try dsimp only
                have hl := ihTL e (val * v) pr hbP.2
                omega
            | false =>
              rw [if_neg Bool.false_ne_true]
              try dsimp only
              omega
    -- parseTerm (f+1)
    · intro e pos h
      simp only [parseTerm]
      rcases hP : parsePower f e pos with ⟨res, p⟩
      have hbP := ihP e pos h
      rw [hP] at hbP; dsimp only at hbP
      try dsimp only
      cases res with
      | error err => (try dsimp only); omega
      | ok v =>
        try dsimp only
        have hl := ihTL e v p hbP.2
        omega
    -- exprLoop (f+1)
    · intro e val pos h
      simp only [exprLoop]
      rcases hm1 : matchChar '+' e pos with ⟨b1, p1⟩
      have hb1 := matchChar_bounds '+' e pos h
      rw [hm1] at hb1; dsimp only at hb1
      try dsimp only
      cases b1 with
      | true =>
        rw [if_pos rfl]
        rcases hT : parseTerm f e p1 with ⟨res, pr⟩
        have hbT := ihT e p1 hb1.2
        rw [hT] at hbT; dsimp only at hbT
        try dsimp only
        cases res with
        | error err => (try dsimp only); omega
        | ok v =>
          try dsimp only
          have hl := ihEL e (val + v) pr hbT.2
          omega
      | false =>
        rw [if_neg Bool.false_ne_true]
        rcases hm2 : matchChar '-' e p1 with ⟨b2, p2⟩
        have hb2 := matchChar_bounds '-' e p1 hb1.2
        rw [hm2] at hb2; dsimp only at hb2
        try dsimp only
        cases b2 with
        | true =>
          rw [if_pos rfl]
          rcases hT : parseTerm f e p2 with ⟨res, pr⟩
          have hbT := ihT e p2 hb2.2
          rw [hT] at hbT; dsimp only at hbT
          try dsimp only
          cases res with
          | error err => (try dsimp only); omega
          | ok v =>
            try dsimp only
            have hl := ihEL e (val - v) pr hbT.2
            omega
        | false =>
          rw [if_neg Bool.false_ne_true]
          try dsimp only
          omega
    -- parseExpression (f+1)
    · intro e pos h
      simp only [parseExpression]
      rcases hT : parseTerm f e pos with ⟨res, p⟩
      have hbT := ihT e pos h
      rw [hT] at hbT; dsimp only at hbT
      try dsimp only
      cases res with
      | error err => (try dsimp only); omega
      | ok v =>
        try dsimp only
        have hl := ihEL e v p hbT.2
        omega

/-! ## Bridge lemmas: the `QV` arithmetic agrees with Mathlib's `ℚ`

These certify the model of the numeric values: under `QV.toRat`, the
canonicalising constructor is exactly rational division, and the `QV` field
operations used by the evaluator are exactly the `ℚ` field operations. -/

lemma toRat_qnorm (n d : Int) (hd : d ≠ 0) :
    (qnorm n d).toRat = (n : ℚ) / (d : ℚ) := by
  unfold qnorm
  rw [if_neg hd]
  dsimp only
  set s : Int := if d < 0 then -1 else 1 with hs
  have hs0 : s ≠ 0 := by by_cases h : d < 0 <;> simp [hs, h]
  have hsd : 0 < s * d := by
    by_cases h : d < 0
    · have h1 : s = -1 := by simp [hs, h]
      rw [h1, neg_one_mul]; omega
    · have h1 : s = 1 := by simp [hs, h]
      rw [h1, one_mul]; omega
  have hdabs : (((s * d).natAbs : Nat) : Int) = s * d := Int.natAbs_of_nonneg hsd.le
  have hdpos : 0 < (s * d).natAbs := Int.natAbs_pos.mpr hsd.ne'
  set g := Nat.gcd (s * n).natAbs (s * d).natAbs with hg
  have hgpos : 0 < g := Nat.gcd_pos_of_pos_right _ hdpos
  have hgn : ((g : Nat) : Int) ∣ s * n := Int.ofNat_dvd_left.mpr (Nat.gcd_dvd_left _ _)
  have hgd : g ∣ (s * d).natAbs := Nat.gcd_dvd_right _ _
  unfold QV.toRat
  dsimp only
  have hgQ : ((g : Nat) : ℚ) ≠ 0 := by exact_mod_cast hgpos.ne'
  have e1 : ((s * n / (g : Int) : Int) : ℚ) = ((s * n : Int) : ℚ) / ((g : Nat) : ℚ) := by
    obtain ⟨k, hk⟩ := hgn
    rw [hk, Int.mul_ediv_cancel_left _ (by exact_mod_cast hgpos.ne')]
    push_cast
    field_simp
  have e2 : (((s * d).natAbs / g : Nat) : ℚ) = (((s * d).natAbs : Nat) : ℚ) / ((g : Nat) : ℚ) := by
    obtain ⟨m, hm⟩ := hgd
    rw [hm, Nat.mul_div_cancel_left _ hgpos]
    push_cast
    field_simp
  rw [e1, e2]
  have hcast : (((s * d).natAbs : Nat) : ℚ) = ((s * d : Int) : ℚ) := by
    have h2 : (((s * d).natAbs : Nat) : ℚ) = (((s * d).natAbs : Int) : ℚ) := by
      simp only [Int.cast_natCast]
    rw [h2, hdabs]
  rw [hcast]
  have hdQ : (d : ℚ) ≠ 0 := by exact_mod_cast hd
  have hsQ : (s : ℚ) ≠ 0 := by exact_mod_cast hs0
  field_simp
  ring

lemma toRat_add (a b : QV) (ha : a.den ≠ 0) (hb : b.den ≠ 0) :
    (a + b).toRat = a.toRat + b.toRat := by
  have hd : ((a.den : Int)) * (b.den : Int) ≠ 0 :=
    mul_ne_zero (by exact_mod_cast ha) (by exact_mod_cast hb)
  show (QV.add a b).toRat = _
  unfold QV.add
  rw [toRat_qnorm _ _ hd]
  unfold QV.toRat
  have haQ : ((a.den : Nat) : ℚ) ≠ 0 := by exact_mod_cast ha
  have hbQ : ((b.den : Nat) : ℚ) ≠ 0 := by exact_mod_cast hb
  push_cast
  field_simp

lemma toRat_sub (a b : QV) (ha : a.den ≠ 0) (hb : b.den ≠ 0) :
    (a - b).toRat = a.toRat - b.toRat := by
  have hd : ((a.den : Int)) * (b.den : Int) ≠ 0 :=
    mul_ne_zero (by exact_mod_cast ha) (by exact_mod_cast hb)
  show (QV.sub a b).toRat = _
  unfold QV.sub
  rw [toRat_qnorm _ _ hd]
  unfold QV.toRat
  have haQ : ((a.den : Nat) : ℚ) ≠ 0 := by exact_mod_cast ha
  have hbQ : ((b.den : Nat) : ℚ) ≠ 0 := by exact_mod_cast hb
  push_cast
  field_simp
  all_goals ring

lemma toRat_mul (a b : QV) (ha : a.den ≠ 0) (hb : b.den ≠ 0) :
    (a * b).toRat = a.toRat * b.toRat := by
  have hd : ((a.den : Int)) * (b.den : Int) ≠ 0 :=
    mul_ne_zero (by exact_mod_cast ha) (by exact_mod_cast hb)
  show (QV.mul a b).toRat = _
  unfold QV.mul
  rw [toRat_qnorm _ _ hd]
  unfold QV.toRat
  have haQ : ((a.den : Nat) : ℚ) ≠ 0 := by exact_mod_cast ha
  have hbQ : ((b.den : Nat) : ℚ) ≠ 0 := by exact_mod_cast hb
  push_cast
  field_simp

lemma toRat_div (a b : QV) (ha : a.den ≠ 0) (hb : b.den ≠ 0) (hbn : b.num ≠ 0) :
    (a / b).toRat = a.toRat / b.toRat := by
  have hd : ((a.den : Int)) * b.num ≠ 0 := mul_ne_zero (by exact_mod_cast ha) hbn
  show (QV.div a b).toRat = _
  unfold QV.div
  rw [toRat_qnorm _ _ hd]
  unfold QV.toRat
  have haQ : ((a.den : Nat) : ℚ) ≠ 0 := by exact_mod_cast ha
  have hbQ : ((b.den : Nat) : ℚ) ≠ 0 := by exact_mod_cast hb
  have hbnQ : ((b.num : Int) : ℚ) ≠ 0 := by exact_mod_cast hbn
  push_cast
  field_simp

lemma toRat_neg (a : QV) : (-a).toRat = -a.toRat := by
  show (QV.neg a).toRat = _
  unfold QV.neg QV.toRat
  push_cast
  ring

lemma toRat_ofInt (n : Int) : (QV.ofInt n).toRat = (n : ℚ) := by
  unfold QV.ofInt QV.toRat
  simp

lemma toRat_powQV (b ex : QV) (hb : b.den ≠ 0) (he : ex.den = 1) (hnn : 0 ≤ ex.num) :
    (QV.powQV b ex).toRat = b.toRat ^ ex.num.toNat := by
  unfold QV.powQV
  rw [if_pos he, if_pos hnn]
  have hd : ((b.den : Int)) ^ ex.num.toNat ≠ 0 := pow_ne_zero _ (by exact_mod_cast hb)
  rw [toRat_qnorm _ _ hd]
  unfold QV.toRat
  push_cast
  rw [div_pow]

/-! ## The claims -/

/-- **C1**: Unary minus is applied to the base before exponentiation: the
unary minus is consumed inside the factor that forms the power's base
(`parseFactor` on `"-2^2"` consumes `-2` and stops before the `'^'`), so
`evaluate "-2^2"` returns `(-2)^2 = 4`, not `-4`. -/
theorem claim_C1_unary_minus_before_pow :
    parseFactor 8 "-2^2".data 0 = (.ok (-2 : QV), 2) ∧
    evaluate "-2^2" = (.ok 4, 4) ∧
    (4 : QV) ≠ -(4 : QV) := by decide

/-- **C2**: Implicit multiplication: after a power inside a term, a following
`'('`, ASCII digit or `'.'` (as the next non-space character) inserts a
multiplication — `2(3+4) = 14`, `3.5(2) = 7`, `3 4 = 12` — while a following
`'+'` or `'-'` never starts a factor (`nextStartsFactor` is `false` whenever
`peek` yields `'+'` or `'-'`), so `2 -3` is the subtraction `2 - 3 = -1`. -/
theorem claim_C2_implicit_multiplication :
    (evaluate "2(3+4)" = (.ok 14, 6) ∧
     evaluate "3.5(2)" = (.ok 7, 6) ∧
     evaluate "3 4" = (.ok 12, 3) ∧
     evaluate "2 -3" = (.ok (-1 : QV), 4)) ∧
    ∀ e pos c p, peek e pos = (c, p) → (c = '+' ∨ c = '-') →
      nextStartsFactor e pos = (false, p) := by
  refine ⟨by decide, ?_⟩
  intro e pos c p hpk hc
  unfold nextStartsFactor
  rw [hpk]
  rcases hc with h | h <;> subst h <;> simp [isDigitC]

theorem claim_C2_witness : nextStartsFactor ['+'] 0 = (false, 0) :=
  claim_C2_implicit_multiplication.2 ['+'] 0 '+' 0 (by decide) (Or.inl rfl)

/-- **C3**: For every modulo operation both operands are truncated toward
zero to integers before the truncated remainder is taken, the result is the
remainder as a numeric value, and the operation fails with the modulo-by-zero
error exactly when the truncated right operand is `0`; hence
`5 % 3 = 2`, `5.9 % 3.1 = 2` and `5 % 0` fails. -/
theorem claim_C3_modulo_truncates :
    (evaluate "5%3" = (.ok 2, 3) ∧
     evaluate "5.9 % 3.1" = (.ok 2, 9) ∧
     evaluate "5%0" = (.error .moduloByZero, 3)) ∧
    ∀ v r : QV,
      (modOp v r = .error .moduloByZero ↔ truncQV r = 0) ∧
      (truncQV r ≠ 0 →
        modOp v r = .ok (QV.ofInt ((truncQV v).tmod (truncQV r)))) := by
  refine ⟨by decide, fun v r => ⟨?_, ?_⟩⟩
  · simp only [modOp]
    split_ifs with hb
    · simp [hb]
    · simp [hb]
  · intro hb
    simp only [modOp]
    rw [if_neg hb]

theorem claim_C3_witness :
    truncQV (⟨31, 10⟩ : QV) ≠ 0 ∧
    modOp ⟨59, 10⟩ ⟨31, 10⟩ =
      .ok (QV.ofInt ((truncQV (⟨59, 10⟩ : QV)).tmod (truncQV (⟨31, 10⟩ : QV)))) :=
  ⟨by decide, (claim_C3_modulo_truncates.2 ⟨59, 10⟩ ⟨31, 10⟩).2 (by decide)⟩

/-- **C4**: A malformed scientific-notation suffix is not consumed: the
speculative exponent scan never moves the cursor before its saved entry
position, on `"1e"` it rolls back to position 1 (just before the `'e'`), the
number parsed is just the mantissa `1`, and standalone evaluation of `"1e"`
fails with the trailing-input error at offset 1, the offset of the `'e'`. -/
theorem claim_C4_exponent_rollback :
    parseNumber "1e".data 0 = (.ok 1, 1) ∧
    expScan "1e".data 1 = 1 ∧
    evaluate "1e" = (.error (.trailingInput 1), 1) ∧
    ∀ e p1, p1 ≤ expScan e p1 :=
  ⟨by decide, by decide, by decide, le_expScan⟩

/-- **C5 counterexample**: the claim "`evaluate \".\"` fails with
ExpectedNumber at offset 0" is false: a lone `'.'` is consumed by the number
scanner (so the `!seenDigit && !(pos > start)` guard of line 138 does not
fire) and the substring `"."` is passed to `std::stod`, which throws
`std::invalid_argument` — not the positioned "Expected number" error. -/
theorem claim_C5_counterexample :
    evaluate "." = (.error .stodInvalid, 1) ∧
    ParseError.stodInvalid ≠ ParseError.expectedNumber 0 := by decide

/-- **C5 (amended)**: a number with no digit anywhere fails, but the error
depends on whether anything was consumed: a lone `'.'` is consumed and fails
with the un-positioned `std::stod` invalid-argument error, while
`ExpectedNumber` at the current offset is raised exactly when the number
production consumes nothing (the next character is neither a digit nor
`'.'`), as for `")"` at offset 0 or `"3 + "` at end of input. -/
theorem claim_C5_amended_lone_dot :
    evaluate "." = (.error .stodInvalid, 1) ∧
    evaluate ")" = (.error (.expectedNumber 0), 0) ∧
    evaluate "3 + " = (.error (.expectedNumber 4), 4) := by decide

/-- **C6 counterexample**: the claim that the unmatched-parenthesis error
*carries* the offset of the end of input is false: `evaluate "(1+2"` does
fail with the `Missing ')'` error while the cursor is at 4, but that error's
message interpolates no offset at all (`offsetCarried = none`), unlike
`TrailingInput` and `ExpectedNumber`. -/
theorem claim_C6_counterexample :
    evaluate "(1+2" = (.error .missingParen, 4) ∧
    ParseError.offsetCarried .missingParen = none := by decide

/-- **C6 (amended)**: an opening `'('` whose `')'` is missing fails with the
UnmatchedParenthesis error, thrown while the cursor sits at the current
offset — the end of input (4) for `"(1+2"` — but the error object itself
(message `"Missing ')'"`) carries no offset. -/
theorem claim_C6_amended_unmatched_paren :
    evaluate "(1+2" = (.error .missingParen, 4) ∧
    "(1+2".length = 4 ∧
    ParseError.offsetCarried .missingParen = none := by decide

/-- **C7**: Division fails with the division-by-zero error exactly when the
right operand is exactly `0` (no epsilon tolerance); otherwise the quotient
is returned.  `evaluate "1/0"` fails with DivisionByZero. -/
theorem claim_C7_division_by_zero :
    evaluate "1/0" = (.error .divisionByZero, 3) ∧
    ∀ v d : QV,
      (divOp v d = .error .divisionByZero ↔ d = 0) ∧
      (d ≠ 0 → divOp v d = .ok (v / d)) := by
  refine ⟨by decide, fun v d => ⟨?_, ?_⟩⟩
  · unfold divOp
    split_ifs with hz
    · simp [hz]
    · simp [hz]
  · intro hz
    unfold divOp
    rw [if_neg hz]

theorem claim_C7_witness :
    (2 : QV) ≠ 0 ∧ divOp 3 2 = .ok ((3 : QV) / 2) :=
  ⟨by decide, (claim_C7_division_by_zero.2 3 2).2 (by decide)⟩

/-- **C8**: Exponentiation is right-associative (`2^3^2 = 2^(3^2) = 512`,
not `(2^3)^2 = 64`) and binds tighter than `'*'` (`2*3^2 = 18`); `'^'` and
`'**'` are equivalent (`2**3**2 = 512`, and they mix: `2**3^2 = 512`). -/
theorem claim_C8_right_assoc_pow :
    evaluate "2^3^2" = (.ok 512, 5) ∧
    evaluate "2**3**2" = (.ok 512, 7) ∧
    evaluate "2**3^2" = (.ok 512, 6) ∧
    evaluate "2*3^2" = (.ok 18, 5) ∧
    evaluate "(2^3)^2" = (.ok 64, 7) := by decide

/-- **C9**: Cursor invariant: starting from any cursor `pos ≤ length`, every
parsing step of the evaluator leaves the cursor within `[pos, length]` — the
cursor never runs past the end of the input and never moves before the
position a step was entered at; in particular the speculative
exponent-suffix rollback (`expScan`) returns exactly to its saved entry
position, never before it. -/
theorem claim_C9_cursor_invariant (fuel : Nat) (e : List Char) (pos : Nat)
    (h : pos ≤ e.length) : CursorClaim fuel e pos := by
  obtain ⟨hF, hP, hTL, hT, hEL, hE⟩ := parseBounds fuel
  exact ⟨⟨le_skipSpaces e pos, skipSpaces_le e pos h⟩,
    fun c => matchChar_bounds c e pos h,
    fun s => matchStr_bounds s e pos h,
    peek_bounds e pos h,
    nextStartsFactor_bounds e pos h,
    ⟨le_expScan e pos, expScan_le e pos h⟩,
    parseNumber_bounds e pos h,
    hF e pos h,
    hP e pos h,
    fun val => hTL e val pos h,
    hT e pos h,
    fun val => hEL e val pos h,
    hE e pos h⟩

theorem claim_C9_witness :
    0 ≤ "1+2".data.length ∧ CursorClaim 5 "1+2".data 0 :=
  ⟨by decide, claim_C9_cursor_invariant 5 "1+2".data 0 (by decide)⟩

/-- **C10**: A number literal consumes at most one decimal point: in
`"1.2.3"` the literal stops before the second `'.'` (consuming `"1.2"`,
value `6/5`), the `'.'` then starts a new factor (`nextStartsFactor` is
true), and evaluation succeeds with the product of the literals `1.2` and
`.3`, i.e. `6/5 * 3/10 = 9/25` — not a parse error. -/
theorem claim_C10_second_dot_implicit_mul :
    parseNumber "1.2.3".data 0 = (.ok ((6 : QV) / 5), 3) ∧
    nextStartsFactor "1.2.3".data 3 = (true, 3) ∧
    evaluate "1.2.3" = (.ok ((6 : QV) / 5 * ((3 : QV) / 10)), 5) ∧
    (6 : QV) / 5 * ((3 : QV) / 10) = ⟨9, 25⟩ := by decide

end Calc
